import Mathlib

/-!
Verification of the `php_session` package (a Redis-backed, PHP-compatible
session manager) against its natural-language specification.

The development shallowly embeds the Python sources:

* `src/php_session/constants.py`  — key layout, lock script, retry cadence
* `src/php_session/config.py`     — `SessionConfig` and its validation
* `src/php_session/sanitize.py`   — `sanitize_phpsessid`
* `src/php_session/decode.py`     — `decode_json_fields`
* `src/php_session/manager.py`    — `SessionManager` operations and `lock()`
* the `phpserialize` codec (`dumps` / `loads`) as used by the manager

Modelling conventions:

* Redis byte strings are modelled as `List Char`, one `Char` per byte
  (all wire bytes relevant to the claims are ASCII, where bytes and
  characters coincide; `phpserialize` counts bytes, the model counts
  characters).
* Python floats are represented by their `repr` string (`PyVal.pfloat`):
  `repr` is injective on floats and `float (repr x) = x`, so carrying the
  literal through serialization is faithful for round-trip purposes.
* Async scheduling is modelled in two ways: single-caller runs of the
  manager are straight-line pure functions, and the multi-caller lock
  protocol is a small-step transition system over the shared lock cell.
* Wall-clock time in the acquire loop advances in 50 ms steps, the
  `LOCK_RETRY_INTERVAL` sleep; the conditional-write attempts themselves
  are instantaneous.  `lock_timeout` is carried in milliseconds.
-/
namespace PhpSession

/-! ## Python values stored in a session

`SessionRecord` values per the data model: string, integer, float,
boolean, nested ordered map, and sequence; `pnone` is Python's `None`,
which `json.loads` can produce.  Dictionaries and lists are mutually
inductive with `PyVal` so that every function on them is plain structural
recursion (and hence computes by `rfl` / `decide`). -/

inductive PyKey where
  | kint (n : Int)
  | kstr (s : String)
deriving DecidableEq

mutual
inductive PyVal where
  | pstr (s : String)
  | pint (n : Int)
  | pfloat (lit : String)
  | pbool (b : Bool)
  | pnone
  | pdict (es : PyEntries)
  | plist (vs : PyItems)
deriving DecidableEq
inductive PyEntries where
  | nil
  | cons (k : PyKey) (v : PyVal) (rest : PyEntries)
deriving DecidableEq
inductive PyItems where
  | nil
  | cons (v : PyVal) (rest : PyItems)
deriving DecidableEq
end

/-- Number of entries of an ordered map. -/
def entLen : PyEntries → Nat
  | .nil => 0
  | .cons _ _ rest => entLen rest + 1

/-- Number of elements of a sequence. -/
def itemLen : PyItems → Nat
  | .nil => 0
  | .cons _ rest => itemLen rest + 1

/-- Build an ordered map from a list of pairs (notation helper). -/
def entOfList : List (PyKey × PyVal) → PyEntries
  | [] => .nil
  | (k, v) :: rest => .cons k v (entOfList rest)

/-- Build a sequence from a list (notation helper). -/
def itemsOfList : List PyVal → PyItems
  | [] => .nil
  | v :: rest => .cons v (itemsOfList rest)

/-- Python `dict.get`: first value bound to a string key, if any. -/
def entLookup (es : PyEntries) (k : String) : Option PyVal :=
  match es with
  | .nil => none
  | .cons k' v rest => if k' = .kstr k then some v else entLookup rest k

/-! ## Decimal numerals

`phpserialize` prints lengths and integers with Python's `str` and reads
them back with `int`; the model prints via base-10 digits and folds them
back. -/
/-- Little-endian base-10 digits of `n`, with explicit fuel so the
definition is structural (kernel-reducible).  Agrees with `Nat.digits 10`
once `fuel ≥ n`. -/
def natDigitsRev (fuel n : Nat) : List Nat :=
  match fuel with
  | 0 => []
  | f + 1 => if n = 0 then [] else (n % 10) :: natDigitsRev f (n / 10)

/-- Decimal digit characters of `n`, most significant first (Python
`str(n)` for a nonnegative `n`). -/
def natChars (n : Nat) : List Char :=
  if n = 0 then ['0'] else (natDigitsRev n n).reverse.map Nat.digitChar

/-- Decimal digit characters of an integer (Python `str(n)`). -/
def intChars : Int → List Char
  | .ofNat m => natChars m
  | .negSucc m => '-' :: natChars (m + 1)

/-- Numeric value of a digit character. -/
def digitVal (c : Char) : Nat := c.toNat - 48

/-- Fold decimal digit characters into the number they denote. -/
def foldNat (l : List Char) : Nat := l.foldl (fun a c => a * 10 + digitVal c) 0

/-- Python `int(s)` on an all-digit string: the denoted number;
anything else (empty string or a non-digit byte) is a parse error. -/
def parseNat (ds : List Char) : Option Nat :=
  if ds ≠ [] ∧ ds.all Char.isDigit then some (foldNat ds) else none

/-- Python `int(s)` including a leading minus sign. -/
def parseInt (ds : List Char) : Option Int :=
  match ds with
  | '-' :: rest => (parseNat rest).map (fun n => -(n : Int))
  | _ => (parseNat ds).map (fun n => (n : Int))

/-! ## The `phpserialize` codec

`SessionManager` saves with `phpserialize.dumps(session_data)` and reads
with `phpserialize.loads(raw, decode_strings=True, object_hook=...)`.
`dumps` writes PHP's serialization format: `s:len:"bytes";`, `i:n;`,
`d:repr;`, `b:0;`/`b:1;`, `N;`, and `a:count:` followed by brace-wrapped
key/value pairs; Python lists become PHP arrays keyed `0..n-1`, and
`loads` returns every PHP array as a dict (never a list). -/
/-- Opening brace of a serialized PHP array. -/
def arrO : Char := '\x7b'

/-- Closing brace of a serialized PHP array. -/
def arrC : Char := '\x7d'

/-- Serialization of one string: `s:len:"bytes";`. -/
def dumpStr (s : String) : List Char :=
  's' :: ':' :: natChars s.length ++ ':' :: '"' :: s.data ++ '"' :: ';' :: []

/-- Serialization of a dict key (`phpserialize` emits `i:n;` for int keys
and the string form for str keys). -/
def dumpKey : PyKey → List Char
  | .kint n => 'i' :: ':' :: intChars n ++ [';']
  | .kstr s => dumpStr s

mutual
/-- `phpserialize.dumps` restricted to the supported value subset. -/
def dumpVal : PyVal → List Char
  | .pstr s => dumpStr s
  | .pint n => 'i' :: ':' :: intChars n ++ [';']
  | .pfloat lit => 'd' :: ':' :: lit.data ++ [';']
  | .pbool b => 'b' :: ':' :: (if b then '1' else '0') :: ';' :: []
  | .pnone => ['N', ';']
  | .pdict es =>
      'a' :: ':' :: natChars (entLen es) ++ ':' :: arrO :: dumpEntries es ++ [arrC]
  | .plist vs =>
      'a' :: ':' :: natChars (itemLen vs) ++ ':' :: arrO :: dumpItems 0 vs ++ [arrC]
/-- Serialized key/value pairs of a dict, in order. -/
def dumpEntries : PyEntries → List Char
  | .nil => []
  | .cons k v rest => dumpKey k ++ dumpVal v ++ dumpEntries rest
/-- Serialized elements of a list, keyed by their index from `i`. -/
def dumpItems (i : Nat) : PyItems → List Char
  | .nil => []
  | .cons v rest => dumpKey (.kint i) ++ dumpVal v ++ dumpItems (i + 1) rest
end

/-- Top-level `phpserialize.dumps` of a session dict. -/
def phpDumps (es : PyEntries) : List Char := dumpVal (.pdict es)

/-- Read characters up to (and consuming) the first occurrence of `t`. -/
def readUntil (t : Char) : List Char → Option (List Char × List Char)
  | [] => none
  | c :: rest =>
      if c = t then some ([], rest)
      else (readUntil t rest).map (fun p => (c :: p.1, p.2))

/-- Interpret a parsed value as a dict key (`phpserialize` array keys are
ints or strings in the supported subset). -/
def toKey : PyVal → Option PyKey
  | .pint n => some (.kint n)
  | .pstr s => some (.kstr s)
  | _ => none

/-- Body of a `b:` tag: integer up to `;`, then Python `bool(int(...))`. -/
def loadBool (cs : List Char) : Option (PyVal × List Char) :=
  match readUntil ';' cs with
  | some (ds, r) =>
      match parseInt ds with
      | some n => some (.pbool (decide (n ≠ 0)), r)
      | none => none
  | none => none

/-- Body of an `i:` tag: integer up to `;`. -/
def loadInt (cs : List Char) : Option (PyVal × List Char) :=
  match readUntil ';' cs with
  | some (ds, r) =>
      match parseInt ds with
      | some n => some (.pint n, r)
      | none => none
  | none => none

/-- Body of a `d:` tag: float literal up to `;`, kept verbatim. -/
def loadFloat (cs : List Char) : Option (PyVal × List Char) :=
  match readUntil ';' cs with
  | some (ds, r) => some (.pfloat (String.mk ds), r)
  | none => none

/-- Body of an `s:` tag: `len:"bytes";` with a length-delimited payload. -/
def loadStr (cs : List Char) : Option (PyVal × List Char) :=
  match readUntil ':' cs with
  | some (ds, r) =>
      match parseNat ds with
      | some n =>
          match r with
          | '"' :: r2 =>
              match r2.drop n with
              | '"' :: ';' :: r3 => some (.pstr (String.mk (r2.take n)), r3)
              | _ => none
          | _ => none
      | none => none
  | none => none

/-- Parse `count` serialized key/value pairs with the value reader `pv`. -/
def loadEntries (pv : List Char → Option (PyVal × List Char)) :
    Nat → List Char → Option (PyEntries × List Char)
  | 0, cs => some (.nil, cs)
  | k + 1, cs =>
      match pv cs with
      | some (kv, r1) =>
          match toKey kv with
          | some key =>
              match pv r1 with
              | some (v, r2) =>
                  match loadEntries pv k r2 with
                  | some (rest, r3) => some (.cons key v rest, r3)
                  | none => none
              | none => none
          | none => none
      | none => none

/-- Body of an `a:` tag: `count:` then brace-wrapped pairs read with `pv`. -/
def loadArr (pv : List Char → Option (PyVal × List Char)) (cs : List Char) :
    Option (PyVal × List Char) :=
  match readUntil ':' cs with
  | some (ds, r) =>
      match parseNat ds with
      | some n =>
          match r with
          | co :: r2 =>
              if co = arrO then
                match loadEntries pv n r2 with
                | some (es, r3) =>
                    match r3 with
                    | cc :: r4 => if cc = arrC then some (.pdict es, r4) else none
                    | _ => none
                | none => none
              else none
          | _ => none
      | none => none
  | none => none

/-- Expect the `:` that follows every tag character except `N`. -/
def afterTag (cs : List Char) (k : List Char → Option (PyVal × List Char)) :
    Option (PyVal × List Char) :=
  match cs with
  | ':' :: r => k r
  | _ => none

/-- One object of `phpserialize.loads`: dispatch on the tag character.
The fuel bounds array-nesting depth; each array level parses its payload
with one unit less.  Returns the value and the unread remainder. -/
def loadVal : Nat → List Char → Option (PyVal × List Char)
  | 0, _ => none
  | _ + 1, [] => none
  | fuel + 1, c :: cs =>
      if c = 'N' then
        match cs with
        | ';' :: r => some (.pnone, r)
        | _ => none
      else if c = 'b' then afterTag cs loadBool
      else if c = 'i' then afterTag cs loadInt
      else if c = 'd' then afterTag cs loadFloat
      else if c = 's' then afterTag cs loadStr
      else if c = 'a' then afterTag cs (loadArr (loadVal fuel))
      else none

/-- `phpserialize.loads`: parse one object from the front of the blob
(trailing bytes are ignored, as in the library).  The fuel `length + 1`
always covers the nesting depth of a parsable blob. -/
def phpLoads (blob : List Char) : Option PyVal :=
  (loadVal (blob.length + 1) blob).map Prod.fst

/-! ## Round trip of the codec

`decode (encode record)` recovers the record as long as the record has no
sequence (lists come back as int-keyed dicts) and every float literal is a
Python `repr` (in particular free of `';'`). -/
mutual
/-- Values whose serialization parses back to themselves: no sequences,
and float literals free of the `';'` terminator (true of every Python
float `repr`). -/
def goodV : PyVal → Bool
  | .pstr _ => true
  | .pint _ => true
  | .pfloat lit => lit.data.all (fun c => decide (c ≠ ';'))
  | .pbool _ => true
  | .pnone => true
  | .pdict es => goodE es
  | .plist _ => false
/-- Entrywise `goodV` over a dict. -/
def goodE : PyEntries → Bool
  | .nil => true
  | .cons _ v rest => goodV v && goodE rest
end

mutual
/-- Array-nesting depth of a value (the parser fuel it needs). -/
def depthV : PyVal → Nat
  | .pdict es => depthE es + 1
  | .plist vs => depthI vs + 1
  | _ => 0
/-- Maximal value depth inside a dict. -/
def depthE : PyEntries → Nat
  | .nil => 0
  | .cons _ v rest => max (depthV v) (depthE rest)
/-- Maximal value depth inside a list. -/
def depthI : PyItems → Nat
  | .nil => 0
  | .cons v rest => max (depthV v) (depthI rest)
end

/-- Value a dict key serializes as. -/
def keyVal : PyKey → PyVal
  | .kint n => .pint n
  | .kstr s => .pstr s

/-! ## Python `json.loads`

`decode_json_fields` attempts `json.loads` on selected string fields and
swallows `JSONDecodeError` / `ValueError`.  The parser below models the
stdlib decoder on the value shapes a session can hold: objects, arrays,
strings with escapes, numbers (ints exact, floats kept as their literal),
`true`/`false`/`null`, and the stdlib's default `NaN`/`Infinity` extras.
Failure is `none`; trailing non-whitespace is a failure ("Extra data"). -/
/-- JSON whitespace (space, tab, newline, carriage return). -/
def jsWs (c : Char) : Bool := c = ' ' || c = '\t' || c = '\n' || c = '\r'

/-- Skip JSON whitespace. -/
def jsSkip (s : List Char) : List Char := s.dropWhile jsWs

/-- Value of one hex digit. -/
def hexVal (c : Char) : Option Nat :=
  if c.isDigit then some (c.toNat - 48)
  else if 'a' ≤ c ∧ c ≤ 'f' then some (c.toNat - 87)
  else if 'A' ≤ c ∧ c ≤ 'F' then some (c.toNat - 55)
  else none

/-- Body of a JSON string after the opening quote: unescape up to the
closing quote.  Raw control characters are rejected (strict mode). -/
def jsStringBody : List Char → Option (List Char × List Char)
  | [] => none
  | c :: r =>
    if c = '"' then some ([], r)
    else if c = '\\' then
      match r with
      | [] => none
      | e :: r2 =>
        if e = 'u' then
          match r2 with
          | h1 :: h2 :: h3 :: h4 :: r3 =>
            match hexVal h1, hexVal h2, hexVal h3, hexVal h4 with
            | some a, some b, some c3, some d =>
                (jsStringBody r3).map
                  (fun p => (Char.ofNat (((a * 16 + b) * 16 + c3) * 16 + d) :: p.1, p.2))
            | _, _, _, _ => none
          | _ => none
        else
          match
            (if e = '"' then some '"'
             else if e = '\\' then some '\\'
             else if e = '/' then some '/'
             else if e = 'b' then some '\x08'
             else if e = 'f' then some '\x0c'
             else if e = 'n' then some '\n'
             else if e = 'r' then some '\r'
             else if e = 't' then some '\t'
             else none) with
          | some d => (jsStringBody r2).map (fun p => (d :: p.1, p.2))
          | none => none
    else if c.toNat < 32 then none
    else (jsStringBody r).map (fun p => (c :: p.1, p.2))

/-- Exponent part of a JSON number, returned as literal characters. -/
def jsExp (s : List Char) : Option (List Char × List Char) :=
  match s with
  | [] => none
  | c :: r =>
    if c = 'e' ∨ c = 'E' then
      let (sg, r1) :=
        match r with
        | '+' :: rr => (['+'], rr)
        | '-' :: rr => (['-'], rr)
        | _ => (([] : List Char), r)
      let ds := r1.takeWhile Char.isDigit
      if ds.isEmpty then none
      else some (c :: (sg ++ ds), r1.dropWhile Char.isDigit)
    else none

/-- JSON number per the stdlib regex `-?(0|[1-9]\d*)(\.\d+)?([eE][-+]?\d+)?`:
an integer becomes `pint`, a fraction or exponent makes it a float whose
literal is kept. -/
def jsNumber (s : List Char) : Option (PyVal × List Char) :=
  let (sign, s1) :=
    match s with
    | '-' :: r => (['-'], r)
    | _ => (([] : List Char), s)
  match s1 with
  | [] => none
  | c :: r =>
    if ¬ c.isDigit = true then none
    else
      let (ip, r1) :=
        if c = '0' then (['0'], r)
        else (c :: r.takeWhile Char.isDigit, r.dropWhile Char.isDigit)
      match r1 with
      | '.' :: r2 =>
        let fs := r2.takeWhile Char.isDigit
        if fs.isEmpty then none
        else
          let r3 := r2.dropWhile Char.isDigit
          match jsExp r3 with
          | some (es, r4) => some (.pfloat (String.mk (sign ++ ip ++ '.' :: (fs ++ es))), r4)
          | none => some (.pfloat (String.mk (sign ++ ip ++ '.' :: fs)), r3)
      | _ =>
        match jsExp r1 with
        | some (es, r4) => some (.pfloat (String.mk (sign ++ ip ++ es)), r4)
        | none =>
          match parseInt (sign ++ ip) with
          | some n => some (.pint n, r1)
          | none => none

/-- Elements of a JSON array after the first element position; `pv` reads
one value, the fuel bounds the element count. -/
def jsArrItems (pv : List Char → Option (PyVal × List Char)) :
    Nat → List Char → Option (PyItems × List Char)
  | 0, _ => none
  | f + 1, s =>
    match pv s with
    | some (v, r) =>
      match jsSkip r with
      | ',' :: r2 =>
        match jsArrItems pv f r2 with
        | some (vs, r3) => some (.cons v vs, r3)
        | none => none
      | ']' :: r2 => some (.cons v .nil, r2)
      | _ => none
    | none => none

/-- Members of a JSON object after the first key position. -/
def jsObjMembers (pv : List Char → Option (PyVal × List Char)) :
    Nat → List Char → Option (PyEntries × List Char)
  | 0, _ => none
  | f + 1, s =>
    match jsSkip s with
    | '"' :: r =>
      match jsStringBody r with
      | some (ks, r1) =>
        match jsSkip r1 with
        | ':' :: r2 =>
          match pv r2 with
          | some (v, r3) =>
            match jsSkip r3 with
            | ',' :: r4 =>
              match jsObjMembers pv f r4 with
              | some (es, r5) => some (.cons (.kstr (String.mk ks)) v es, r5)
              | none => none
            | c :: r4 =>
              if c = arrC then some (.cons (.kstr (String.mk ks)) v .nil, r4)
              else none
            | _ => none
          | none => none
        | _ => none
      | none => none
    | _ => none

/-- One JSON value; fuel bounds nesting depth. -/
def jsVal : Nat → List Char → Option (PyVal × List Char)
  | 0, _ => none
  | fuel + 1, s =>
    match jsSkip s with
    | [] => none
    | c :: r =>
      if c = '"' then (jsStringBody r).map (fun p => (.pstr (String.mk p.1), p.2))
      else if c = '[' then
        match jsSkip r with
        | ']' :: r2 => some (.plist .nil, r2)
        | r1 =>
          match jsArrItems (jsVal fuel) (r1.length + 1) r1 with
          | some (vs, r2) => some (.plist vs, r2)
          | none => none
      else if c = arrO then
        match jsSkip r with
        | c2 :: r2 =>
          if c2 = arrC then some (.pdict .nil, r2)
          else
            match jsObjMembers (jsVal fuel) (r.length + 1) r with
            | some (es, r3) => some (.pdict es, r3)
            | none => none
        | _ => none
      else if c = 't' then
        match r with
        | 'r' :: 'u' :: 'e' :: r2 => some (.pbool true, r2)
        | _ => none
      else if c = 'f' then
        match r with
        | 'a' :: 'l' :: 's' :: 'e' :: r2 => some (.pbool false, r2)
        | _ => none
      else if c = 'n' then
        match r with
        | 'u' :: 'l' :: 'l' :: r2 => some (.pnone, r2)
        | _ => none
      else if c = 'N' then
        match r with
        | 'a' :: 'N' :: r2 => some (.pfloat "nan", r2)
        | _ => none
      else if c = 'I' then
        match r with
        | 'n' :: 'f' :: 'i' :: 'n' :: 'i' :: 't' :: 'y' :: r2 => some (.pfloat "inf", r2)
        | _ => none
      else if c = '-' then
        match r with
        | 'I' :: 'n' :: 'f' :: 'i' :: 'n' :: 'i' :: 't' :: 'y' :: r2 =>
            some (.pfloat "-inf", r2)
        | _ => jsNumber (c :: r)
      else if c.isDigit then jsNumber (c :: r)
      else none

/-- Python `json.loads`: one value, with only whitespace allowed after it
("Extra data" otherwise). -/
def jsonLoads (s : String) : Option PyVal :=
  match jsVal (s.data.length + 1) s.data with
  | some (v, r) => if (jsSkip r).isEmpty then some v else none
  | none => none

/-! ## `decode.py`: `decode_json_fields`

Faithful to the Python loop: iterate the dict in order; for a
string-valued entry, decode it in place when
`(json_fields and key in json_fields) or (json_prefix and
key.startswith(json_prefix))` holds and `json.loads` succeeds, swallowing
parse failures.  Python truthiness makes `None`, the empty set and the
empty string all disable their clause. -/
/-- List-level string prefix test (Python `str.startswith`). -/
def charsPfx : List Char → List Char → Bool
  | [], _ => true
  | _ :: _, [] => false
  | c :: cs, d :: ds => c = d && charsPfx cs ds

/-- Python `key.startswith(p)`. -/
def startsWithPy (s p : String) : Bool := charsPfx p.data s.data

/-- The `should_decode` condition of `decode_json_fields`, including the
truthiness of the empty field set and of the empty auto-detect string. -/
def shouldDecode (fields : Option (List String)) (pfx : Option String) (k : String) : Bool :=
  (match fields with
   | none => false
   | some fs => !fs.isEmpty && decide (k ∈ fs)) ||
  (match pfx with
   | none => false
   | some p => !decide (p = "") && startsWithPy k p)

/-- `decode_json_fields(data, json_fields, json_prefix)`.  The Python
function mutates existing keys of `data` in place while iterating and
returns the same dict; the pure model rebuilds the entries in order.
Only string keys can satisfy `should_decode` (a session dict is
`dict[str, Any]`). -/
def decode_json_fields (data : PyEntries) (fields : Option (List String))
    (pfx : Option String) : PyEntries :=
  match data with
  | .nil => .nil
  | .cons k v rest =>
    let v2 :=
      match k, v with
      | .kstr ks, .pstr s =>
        if shouldDecode fields pfx ks then
          match jsonLoads s with
          | some w => w
          | none => .pstr s
        else .pstr s
      | _, _ => v
    .cons k v2 (decode_json_fields rest fields pfx)

/-! ## `config.py`: `SessionConfig`

`lock_timeout` is a float of seconds in the source; the retry interval is
exactly 50 ms, so the model carries the timeout in integer milliseconds
(`lockTimeoutMs = lock_timeout * 1000`, the `px` value the code sends). -/
/-- `SessionConfig` (field names adjusted to the embedding: `sessionPfx`
is `session_prefix`, `lockSfx` is `lock_suffix`, `jsonFields` is
`json_fields`, `jsonPfx` is `json_prefix`). -/
structure SessionConfig where
  session_expire : Nat
  lockTimeoutMs : Nat
  sessionPfx : String
  lockSfx : String
  jsonFields : Option (List String)
  jsonPfx : Option String

/-- `DEFAULT_JSON_FIELDS` from `constants.py`. -/
def defaultJsonFields : List String :=
  ["scart_items", "ga_data", "session_view_log", "MPIReceive"]

/-- `SessionConfig()` with every default from `constants.py`
(`session_expire = 86400`, `lock_timeout = 30.0` s, prefix
`PHPREDIS_SESSION:`, lock key suffix `_LOCK`, `json_prefix =
"trace_list_"`). -/
def defaultConfig : SessionConfig :=
  ⟨86400, 30000, "PHPREDIS_SESSION:", "_LOCK", some defaultJsonFields, some "trace_list_"⟩

/-- `SessionConfig.__post_init__` validation: positive expiry, positive
lock timeout, non-empty key prefix. -/
def configValid (c : SessionConfig) : Bool :=
  decide (0 < c.session_expire) && decide (0 < c.lockTimeoutMs) &&
    decide (c.sessionPfx ≠ "")

/-- `SessionManager._decode_session`: `phpserialize.loads` (with
`decode_strings=True` and dict-producing `object_hook`) followed by
`decode_json_fields` with the configured field set and auto-detect
string.  A blob that does not parse — or does not denote a dict, which
the annotated `dict[str, Any]` result type requires — is an error
(`none`). -/
def decodeSession (cfg : SessionConfig) (blob : List Char) : Option PyEntries :=
  match phpLoads blob with
  | some (.pdict es) => some (decode_json_fields es cfg.jsonFields cfg.jsonPfx)
  | _ => none

/-! ## `sanitize.py`: `sanitize_phpsessid` -/
/-- Characters Python's `str.strip()` removes: exactly those with
`str.isspace()` true, i.e. `\t\n\v\f\r`, space, the ASCII separators
`\x1c`-`\x1f`, next-line `\x85`, no-break space `\xa0`, and the Unicode
space characters (Ogham space mark U+1680, the quads and spaces
U+2000-U+200A, line and paragraph separators U+2028/U+2029, narrow
no-break space U+202F, medium mathematical space U+205F, ideographic
space U+3000). -/
def pySpace (c : Char) : Bool :=
  (0x09 ≤ c.toNat && c.toNat ≤ 0x0d) || c.toNat = 0x20 ||
  (0x1c ≤ c.toNat && c.toNat ≤ 0x1f) || c.toNat = 0x85 || c.toNat = 0xa0 ||
  c.toNat = 0x1680 || (0x2000 ≤ c.toNat && c.toNat ≤ 0x200a) ||
  c.toNat = 0x2028 || c.toNat = 0x2029 || c.toNat = 0x202f ||
  c.toNat = 0x205f || c.toNat = 0x3000

/-- Python `str.strip()`. -/
def pyStrip (s : String) : String :=
  String.mk (((s.data.dropWhile pySpace).reverse.dropWhile pySpace).reverse)

/-- One character of `PHPSESSID_PATTERN`'s class `[a-zA-Z0-9]`. -/
def isPatChar (c : Char) : Bool := c.isAlpha || c.isDigit

/-- `PHPSESSID_PATTERN.match(s)` for a stripped candidate:
`^[a-zA-Z0-9]{26,128}$`. -/
def patMatch (s : String) : Bool :=
  decide (26 ≤ s.length) && decide (s.length ≤ 128) && s.data.all isPatChar

/-- `sanitize_phpsessid`: falsy input is rejected, the candidate is
stripped, matched against the pattern, then double-checked for null
bytes; the stripped id is returned on success and `None` otherwise. -/
def sanitize_phpsessid (sid : Option String) : Option String :=
  match sid with
  | none => none
  | some s =>
    if s = "" then none
    else
      let t := pyStrip s
      if patMatch t then
        if t.data.contains '\x00' then none else some t
      else none

/-! ## The Redis store and `manager.py`

A store maps keys to a value plus the TTL it was written with (in
milliseconds: session writes use `ex=session_expire` seconds, lock writes
use `px = lock_timeout * 1000`).  Single-caller operations are pure
functions from a static store: no other writer runs during them (the
multi-writer lock protocol is the transition system further below). -/
/-- One Redis entry: the stored bytes and the TTL they were set with. -/
structure RVal where
  val : List Char
  ttlMs : Nat
deriving DecidableEq

/-- The shared key-value store. -/
def Store := String → Option RVal

/-- Point update of a store (`SET` / `DEL`). -/
def supd (st : Store) (k : String) (v : Option RVal) : Store :=
  fun k2 => if k2 = k then v else st k2

/-- The empty store. -/
def emptyStore : Store := fun _ => none

/-- `SessionManager._session_key`: `{session_prefix}{session_id}`. -/
def sessionKey (cfg : SessionConfig) (sid : String) : String := cfg.sessionPfx ++ sid

/-- `SessionManager._lock_key`: `{session_key}{lock_suffix}`. -/
def lockKey (cfg : SessionConfig) (sid : String) : String :=
  sessionKey cfg sid ++ cfg.lockSfx

/-- `RELEASE_LOCK_SCRIPT`: if the value at the key equals the token,
delete it and answer 1, else answer 0 — one atomic step. -/
def releaseLock (st : Store) (k : String) (token : List Char) : Store × Nat :=
  match st k with
  | some e => if e.val = token then (supd st k none, 1) else (st, 0)
  | none => (st, 0)

/-- Errors of the non-lock operations: `SessionContextError`, or a raise
out of decoding (`phpserialize` failure or a non-dict blob). -/
inductive SessErr where
  | ctxMissing
  | decodeFailure
deriving DecidableEq

/-- `SessionManager._resolve_session_id`: an explicit parameter wins,
else the contextvar, else `SessionContextError`. -/
def resolveSessionId (explicit ctx : Option String) : Except SessErr String :=
  match explicit with
  | some s => .ok s
  | none =>
    match ctx with
    | some c => .ok c
    | none => .error .ctxMissing

/-- Python return value of `SessionManager.get`: `None`, the whole dict,
or one value. -/
inductive PyRet where
  | retNone
  | retDict (d : PyEntries)
  | retVal (v : PyVal)
deriving DecidableEq

/-- Load step shared by `lock()` and `set()`: a missing or empty blob is
an empty dict (`if raw:`), otherwise decode or raise. -/
def loadData (decode : List Char → Option PyEntries) (rawOpt : Option RVal) :
    Except SessErr PyEntries :=
  match rawOpt with
  | none => .ok .nil
  | some r =>
    if r.val.isEmpty then .ok .nil
    else
      match decode r.val with
      | some es => .ok es
      | none => .error .decodeFailure

/-- `phpserialize.loads` producing a dict, as `set()` uses it (without
the JSON sub-field pass). -/
def phpLoadsDict (blob : List Char) : Option PyEntries :=
  match phpLoads blob with
  | some (.pdict es) => some es
  | _ => none

/-- `SessionManager.get(key, session_id)`: read-only, no lock; an absent
blob answers `None`, a present one is `_decode_session`-d, then either
the whole dict or `data.get(key)` is returned. -/
def getRun (cfg : SessionConfig) (st : Store) (key : Option String)
    (explicit ctx : Option String) : Except SessErr PyRet :=
  match resolveSessionId explicit ctx with
  | .error e => .error e
  | .ok sid =>
    match st (sessionKey cfg sid) with
    | none => .ok .retNone
    | some r =>
      match decodeSession cfg r.val with
      | none => .error .decodeFailure
      | some data =>
        match key with
        | none => .ok (.retDict data)
        | some k =>
          match entLookup data k with
          | some v => .ok (.retVal v)
          | none => .ok .retNone

/-- Python dict assignment `data[key] = value`: replace in place keeping
order, or append a new key. -/
def recAssign (d : PyEntries) (k : PyKey) (v : PyVal) : PyEntries :=
  match d with
  | .nil => .cons k v .nil
  | .cons k0 v0 rest =>
    if k0 = k then .cons k0 v rest else .cons k0 v0 (recAssign rest k v)

/-- `SessionManager.set(key, value, session_id)`:
read-decode-assign-encode-write with a fresh TTL (no lock, no JSON
sub-field pass on the read). -/
def setRun (cfg : SessionConfig) (st : Store) (k : String) (v : PyVal)
    (explicit ctx : Option String) : Except SessErr Store :=
  match resolveSessionId explicit ctx with
  | .error e => .error e
  | .ok sid =>
    match loadData phpLoadsDict (st (sessionKey cfg sid)) with
    | .error e => .error e
    | .ok data =>
      .ok (supd st (sessionKey cfg sid)
        (some ⟨phpDumps (recAssign data (.kstr k) v), 1000 * cfg.session_expire⟩))

/-- `SessionManager.save(data, session_id)`: unconditional whole-record
write with a fresh TTL. -/
def saveRun (cfg : SessionConfig) (st : Store) (data : PyEntries)
    (explicit ctx : Option String) : Except SessErr Store :=
  match resolveSessionId explicit ctx with
  | .error e => .error e
  | .ok sid =>
    .ok (supd st (sessionKey cfg sid)
      (some ⟨phpDumps data, 1000 * cfg.session_expire⟩))

/-- `SessionManager.delete(session_id)`: `DEL` the session key, answering
whether it existed. -/
def deleteRun (cfg : SessionConfig) (st : Store) (explicit ctx : Option String) :
    Except SessErr (Store × Bool) :=
  match resolveSessionId explicit ctx with
  | .error e => .error e
  | .ok sid =>
    .ok (supd st (sessionKey cfg sid) none, (st (sessionKey cfg sid)).isSome)

/-- `SessionManager.exists(session_id)`: `EXISTS` on the session key. -/
def existsRun (cfg : SessionConfig) (st : Store) (explicit ctx : Option String) :
    Except SessErr Bool :=
  match resolveSessionId explicit ctx with
  | .error e => .error e
  | .ok sid => .ok (st (sessionKey cfg sid)).isSome

/-! ## The `lock()` scope

`lock()` resolves the id, mints a token, polls `SET key token NX PX`
until `lock_timeout` elapses (sleeping `LOCK_RETRY_INTERVAL = 50 ms`
between rejected attempts), raises `SessionLockError` on timeout; on
acquisition it loads and decodes the blob, yields the dict to the
caller's block, and in a `finally` re-encodes and writes the dict with a
fresh TTL and runs the release script.  The run is recorded with the
resulting store, the Redis operations issued, the elapsed milliseconds,
and the dict yielded to the block. -/
/-- The Redis operations `lock()` can issue, with their key. -/
inductive ROp where
  | rsetnx (k : String)
  | rget (k : String)
  | rset (k : String)
  | rscript (k : String)
deriving DecidableEq

/-- The acquire loop over a static store: while the elapsed time is below
the timeout, attempt `SET NX` (succeeding iff the lock key is absent) and
otherwise sleep 50 ms and retry.  Answers (acquired?, elapsed ms, the
attempts made).  The fuel only truncates runs longer than the timeout
allows; `lock()` passes enough for every exit to be a real one. -/
def acqLoop (st : Store) (lk : String) (timeoutMs : Nat) :
    Nat → Nat → Bool × Nat × List ROp
  | now, 0 => (false, now, [])
  | now, fuel + 1 =>
    if now < timeoutMs then
      if (st lk).isNone then (true, now, [.rsetnx lk])
      else
        let r := acqLoop st lk timeoutMs (now + 50) fuel
        (r.1, r.2.1, .rsetnx lk :: r.2.2)
    else (false, now, [])

/-- `SessionLockError.__init__` truncation: `sid[:8] + "..."` when the id
is longer than 8 characters. -/
def pyTake (s : String) (n : Nat) : String := String.mk (s.data.take n)

/-- The redacted session id carried by `SessionLockError`. -/
def redact (sid : String) : String :=
  if 8 < sid.length then pyTake sid 8 ++ "..." else sid

/-- What a `lock()` call can raise: `SessionContextError`,
`SessionLockError` (with its redacted id and the timeout), a decode
failure, or the caller's own exception `e` propagating out. -/
inductive LockErr (E : Type) where
  | ctxError
  | lockFailure (redactedId : String) (timeoutMs : Nat)
  | decodeError
  | bodyRaise (e : E)
deriving DecidableEq

/-- Observable outcome of one `lock()` call. -/
structure LockOutcome (E : Type) where
  result : Except (LockErr E) Unit
  store : Store
  trace : List ROp
  elapsedMs : Nat
  yielded : Option PyEntries

/-- One full `async with manager.lock(...)` over a static store.  The
caller's block is `body`: it turns the yielded dict into the (possibly
mutated) dict plus an optional raised exception.  The `finally` always
saves and then runs the release script; a decode failure happens before
the `try` and so skips both. -/
def lockRun {E : Type} (cfg : SessionConfig) (st : Store)
    (explicit ctx : Option String) (token : List Char)
    (body : PyEntries → PyEntries × Option E) : LockOutcome E :=
  match resolveSessionId explicit ctx with
  | .error _ => ⟨.error .ctxError, st, [], 0, none⟩
  | .ok sid =>
    let sk := sessionKey cfg sid
    let lk := lockKey cfg sid
    let T := cfg.lockTimeoutMs
    let a := acqLoop st lk T 0 (T / 50 + 1)
    if a.1 then
      let st1 := supd st lk (some ⟨token, T⟩)
      match loadData (decodeSession cfg) (st1 sk) with
      | .error _ => ⟨.error .decodeError, st1, a.2.2 ++ [.rget sk], a.2.1, none⟩
      | .ok data =>
        let br := body data
        let st2 := supd st1 sk (some ⟨phpDumps br.1, 1000 * cfg.session_expire⟩)
        let st3 := (releaseLock st2 lk token).1
        let res : Except (LockErr E) Unit :=
          match br.2 with
          | some e => .error (.bodyRaise e)
          | none => .ok ()
        ⟨res, st3, a.2.2 ++ [.rget sk, .rset sk, .rscript lk], a.2.1, some data⟩
    else ⟨.error (.lockFailure (redact sid) T), st, a.2.2, a.2.1, none⟩

/-! ## The distributed lock protocol under N concurrent callers

N `lock()` callers for one session id interleave against the shared lock
key.  Each caller mints its own token (`secrets.token_hex(16)`, 128
random bits — modelled as an injective token assignment), tries the
conditional write, and on success holds, saves, then compare-and-deletes.
Steps are the store's atomic operations exactly as the code issues them:
`SET NX` (succeeds only on an absent key), the save write, and the
release script's compare-and-delete; a caller may also time out while
still acquiring. -/
/-- Phase of one `lock()` caller. -/
inductive Phase where
  | acquiring
  | held
  | saved
  | done
  | failed
deriving DecidableEq

/-- Global state: the lock key's content, each caller's phase, and how
many saves have been issued. -/
structure CState (n : Nat) where
  lockCell : Option (List Char)
  phases : Fin n → Phase
  saves : Nat

/-- All callers start acquiring with the lock key absent. -/
def initState (n : Nat) : CState n := ⟨none, fun _ => .acquiring, 0⟩

/-- One atomic step of some caller `i`. -/
inductive CStep (n : Nat) (tok : Fin n → List Char) : CState n → CState n → Prop where
  | acquireOk (i : Fin n) (s : CState n) :
      s.phases i = .acquiring → s.lockCell = none →
      CStep n tok s ⟨some (tok i), Function.update s.phases i .held, s.saves⟩
  | acquireBusy (i : Fin n) (s : CState n) (t : List Char) :
      s.phases i = .acquiring → s.lockCell = some t →
      CStep n tok s s
  | timeout (i : Fin n) (s : CState n) :
      s.phases i = .acquiring →
      CStep n tok s ⟨s.lockCell, Function.update s.phases i .failed, s.saves⟩
  | save (i : Fin n) (s : CState n) :
      s.phases i = .held →
      CStep n tok s ⟨s.lockCell, Function.update s.phases i .saved, s.saves + 1⟩
  | release (i : Fin n) (s : CState n) :
      s.phases i = .saved →
      CStep n tok s
        ⟨if s.lockCell = some (tok i) then none else s.lockCell,
          Function.update s.phases i .done, s.saves⟩

/-- States reachable by interleaving the callers from the initial state. -/
def Reachable (n : Nat) (tok : Fin n → List Char) (s : CState n) : Prop :=
  Relation.ReflTransGen (CStep n tok) (initState n) s

/-- Phases counted by the save counter. -/
def savedOrDone (ph : Phase) : Bool := ph = .saved || ph = .done

/-- The protocol invariant: a caller between successful acquire and
successful release owns the lock cell (it holds that caller's token), and
the save counter counts the callers past their save. -/
def LockInv (n : Nat) (tok : Fin n → List Char) (s : CState n) : Prop :=
  (∀ i : Fin n, (s.phases i = .held ∨ s.phases i = .saved) →
    s.lockCell = some (tok i)) ∧
  s.saves = (Finset.univ.filter (fun i : Fin n => savedOrDone (s.phases i) = true)).card

/-! ## Spec-side definitions and concrete fixtures used by the claims -/
/-- Entrywise map over a dict, keeping keys and order (spec-side shape of
the JSON sub-field pass). -/
def entMap (g : PyKey → PyVal → PyVal) : PyEntries → PyEntries
  | .nil => .nil
  | .cons k v r => .cons k (g k v) (entMap g r)

/-- Spec wording of which keys the JSON pass targets: the key is in the
known-field set, or a non-empty auto-detect string is configured and the
key starts with it. -/
def specTargeted (fields : Option (List String)) (pfx : Option String) (k : String) : Bool :=
  (match fields with
   | some fs => decide (k ∈ fs)
   | none => false) ||
  (match pfx with
   | some p => decide (p ≠ "") && startsWithPy k p
   | none => false)

/-- Spec wording of the JSON sub-field pass on one entry: a targeted
string value is replaced by its parsed JSON when parsing succeeds and
kept verbatim when it fails; everything else is untouched. -/
def jsonPassSpec (fields : Option (List String)) (pfx : Option String)
    (k : PyKey) (v : PyVal) : PyVal :=
  match k, v with
  | .kstr ks, .pstr s =>
    if specTargeted fields pfx ks then
      match jsonLoads s with
      | some w => w
      | none => .pstr s
    else .pstr s
  | _, _ => v

/-- No top-level entry targeted by the JSON pass parses as JSON (the
hypothesis under which decode ∘ encode is the identity). -/
def jsonSafeB (fields : Option (List String)) (pfx : Option String) : PyEntries → Bool
  | .nil => true
  | .cons k v r =>
    (match k, v with
     | .kstr ks, .pstr s =>
       if shouldDecode fields pfx ks then (jsonLoads s).isNone else true
     | _, _ => true) && jsonSafeB fields pfx r

/-- A valid 32-character session id (the spec's concrete example). -/
def exampleSid : String := "a1b2c3d4e5f6g7h8i9j0k1l2m3n4o5p6"

/-- Two distinct tokens for a two-caller witness run. -/
def twoTok : Fin 2 → List Char := fun i => natChars i.val

/-- Final state of a two-caller witness run: both callers done, two
saves issued, lock free. -/
def twoFinal : CState 2 :=
  ⟨none,
    Function.update
      (Function.update
        (Function.update
          (Function.update
            (Function.update
              (Function.update (fun _ => Phase.acquiring) 0 .held)
              0 .saved)
            0 .done)
          1 .held)
        1 .saved)
      1 .done,
    2⟩

/-- A concrete record exercising every remaining variant (string, int,
bool, nested map with an int key, float). -/
def wRec : PyEntries :=
  .cons (.kstr "user") (.pstr "bob")
    (.cons (.kstr "n") (.pint 42)
      (.cons (.kstr "ok") (.pbool true)
        (.cons (.kstr "meta") (.pdict (.cons (.kint 0) (.pstr "x") .nil))
          (.cons (.kstr "price") (.pfloat "1.5") .nil))))

/-- Concrete fixture for C3: a 100 ms timeout and a lock key held by
another owner. -/
def c3cfg : SessionConfig :=
  ⟨86400, 100, "PHPREDIS_SESSION:", "_LOCK", none, none⟩

/-- Concrete fixture for C3: the store holding the foreign lock. -/
def c3store : Store :=
  supd emptyStore (lockKey c3cfg exampleSid) (some ⟨['o'], 100⟩)

/-! ## Theorems -/

theorem natDigitsRev_eq_digits : ∀ fuel n, n ≤ fuel → natDigitsRev fuel n = Nat.digits 10 n := by
  intro fuel
  induction fuel with
  | zero => intro n hn; interval_cases n; simp [natDigitsRev]
  | succ f ih =>
    intro n hn
    by_cases h0 : n = 0
    · subst h0; simp [natDigitsRev]
    · rw [natDigitsRev]
      simp only [h0, if_false]
      rw [Nat.digits_def' (by norm_num : 1 < 10) (Nat.pos_of_ne_zero h0)]
      congr 1
      exact ih (n / 10) (by omega)

theorem digitVal_digitChar (d : Nat) (h : d < 10) : digitVal (Nat.digitChar d) = d := by
  interval_cases d <;> rfl

theorem foldl_rev_ofDigits : ∀ (L : List Nat) (a : Nat),
    List.foldl (fun x d => x * 10 + d) a L.reverse = a * 10 ^ L.length + Nat.ofDigits 10 L := by
  intro L
  induction L with
  | nil => intro a; simp [Nat.ofDigits]
  | cons d L ih =>
    intro a
    simp only [List.reverse_cons, List.foldl_append, List.foldl_cons, List.foldl_nil, ih,
      Nat.ofDigits_cons, List.length_cons]
    ring

theorem foldNat_natChars (n : Nat) : foldNat (natChars n) = n := by
  by_cases h0 : n = 0
  · subst h0; rfl
  · unfold natChars foldNat
    simp only [h0, if_false]
    rw [natDigitsRev_eq_digits n n le_rfl, List.foldl_map]
    rw [List.foldl_ext _ (fun a d => a * 10 + d) _
      (by intro a b hb
          have hb' : b ∈ Nat.digits 10 n := List.mem_reverse.mp hb
          simp only [digitVal_digitChar b (Nat.digits_lt_base (by norm_num) hb')])]
    rw [foldl_rev_ofDigits]
    simp [Nat.ofDigits_digits]

theorem natChars_all_digit (n : Nat) : ∀ c ∈ natChars n, c.isDigit = true := by
  unfold natChars
  by_cases h0 : n = 0
  · intro c hc
    simp [h0] at hc
    subst hc
    rfl
  · simp only [h0, if_false]
    intro c hc
    obtain ⟨d, hd, rfl⟩ := List.mem_map.mp hc
    have hd' : d ∈ natDigitsRev n n := List.mem_reverse.mp hd
    rw [natDigitsRev_eq_digits n n le_rfl] at hd'
    have : d < 10 := Nat.digits_lt_base (by norm_num) hd'
    interval_cases d <;> rfl

theorem natChars_ne_nil (n : Nat) : natChars n ≠ [] := by
  unfold natChars
  by_cases h0 : n = 0
  · simp [h0]
  · simp only [h0, if_false]
    rw [natDigitsRev_eq_digits n n le_rfl]
    simp [Nat.digits_eq_nil_iff_eq_zero, h0]

theorem parseNat_natChars (n : Nat) : parseNat (natChars n) = some n := by
  unfold parseNat
  rw [if_pos ⟨natChars_ne_nil n, List.all_eq_true.mpr (natChars_all_digit n)⟩,
    foldNat_natChars]

theorem parseInt_intChars (n : Int) : parseInt (intChars n) = some n := by
  cases n with
  | ofNat m =>
    show parseInt (natChars m) = some m
    obtain ⟨c, cs, hc⟩ := List.exists_cons_of_ne_nil (natChars_ne_nil m)
    have hdig : c.isDigit = true := natChars_all_digit m c (by rw [hc]; exact List.mem_cons_self c cs)
    have hne : c ≠ '-' := by
      intro h
      rw [h] at hdig
      exact absurd hdig (by decide)
    rw [hc]
    unfold parseInt
    split
    · next heq => exact absurd (List.head_eq_of_cons_eq heq.symm) (Ne.symm hne)
    · rw [← hc, parseNat_natChars]; rfl
  | negSucc m =>
    show parseInt ('-' :: natChars (m + 1)) = some (.negSucc m)
    simp only [parseInt, parseNat_natChars]
    simp [Int.negSucc_eq]

theorem readUntil_append (t : Char) :
    ∀ (pre rest : List Char), (∀ c ∈ pre, c ≠ t) →
      readUntil t (pre ++ t :: rest) = some (pre, rest) := by
  intro pre
  induction pre with
  | nil => intro rest _; simp [readUntil]
  | cons c p ih =>
    intro rest h
    have hc : c ≠ t := h c (List.mem_cons_self c p)
    simp only [List.cons_append, readUntil, List.append_eq]
    rw [if_neg hc, ih rest (fun x hx => h x (List.mem_cons_of_mem c hx))]
    rfl

theorem isDigit_ne_colon {c : Char} (h : c.isDigit = true) : c ≠ ':' := by
  intro he; subst he; exact absurd h (by decide)

theorem isDigit_ne_semi {c : Char} (h : c.isDigit = true) : c ≠ ';' := by
  intro he; subst he; exact absurd h (by decide)

theorem intChars_ne_semi (n : Int) : ∀ c ∈ intChars n, c ≠ ';' := by
  cases n with
  | ofNat m =>
    intro c hc
    exact isDigit_ne_semi (natChars_all_digit m c hc)
  | negSucc m =>
    intro c hc
    rcases List.mem_cons.mp hc with h | h
    · subst h; decide
    · exact isDigit_ne_semi (natChars_all_digit (m + 1) c h)

theorem stringMk_data (s : String) : String.mk s.data = s := rfl

theorem loadVal_tag_b (fuel : Nat) (cs : List Char) :
    loadVal (fuel + 1) ('b' :: ':' :: cs) = loadBool cs := rfl

theorem loadVal_tag_i (fuel : Nat) (cs : List Char) :
    loadVal (fuel + 1) ('i' :: ':' :: cs) = loadInt cs := rfl

theorem loadVal_tag_d (fuel : Nat) (cs : List Char) :
    loadVal (fuel + 1) ('d' :: ':' :: cs) = loadFloat cs := rfl

theorem loadVal_tag_s (fuel : Nat) (cs : List Char) :
    loadVal (fuel + 1) ('s' :: ':' :: cs) = loadStr cs := rfl

theorem loadVal_tag_a (fuel : Nat) (cs : List Char) :
    loadVal (fuel + 1) ('a' :: ':' :: cs) = loadArr (loadVal fuel) cs := rfl

theorem loadVal_dumpStr (fuel : Nat) (s : String) (rest : List Char) :
    loadVal (fuel + 1) (dumpStr s ++ rest) = some (.pstr s, rest) := by
  have h1 : readUntil ':' (natChars s.length ++ ':' :: '"' :: (s.data ++ '"' :: ';' :: rest))
      = some (natChars s.length, '"' :: (s.data ++ '"' :: ';' :: rest)) :=
    readUntil_append ':' _ _ (fun c hc => isDigit_ne_colon (natChars_all_digit _ c hc))
  have h2 : List.drop s.length (s.data ++ '"' :: ';' :: rest) = '"' :: ';' :: rest :=
    List.drop_left s.data ('"' :: ';' :: rest)
  have h3 : List.take s.length (s.data ++ '"' :: ';' :: rest) = s.data :=
    List.take_left s.data ('"' :: ';' :: rest)
  simp only [dumpStr, List.cons_append, List.append_assoc, List.nil_append]
  rw [loadVal_tag_s]
  simp [loadStr, h1, parseNat_natChars, h2, h3, stringMk_data]

theorem loadVal_dumpInt (fuel : Nat) (n : Int) (rest : List Char) :
    loadVal (fuel + 1) (('i' :: ':' :: intChars n ++ [';']) ++ rest) = some (.pint n, rest) := by
  have h1 : readUntil ';' (intChars n ++ ';' :: rest) = some (intChars n, rest) :=
    readUntil_append ';' _ _ (intChars_ne_semi n)
  simp only [List.cons_append, List.append_assoc, List.nil_append]
  rw [loadVal_tag_i]
  simp [loadInt, h1, parseInt_intChars]

theorem loadVal_dumpKey (fuel : Nat) (k : PyKey) (rest : List Char) :
    loadVal (fuel + 1) (dumpKey k ++ rest) = some (keyVal k, rest) := by
  cases k with
  | kint n => exact loadVal_dumpInt fuel n rest
  | kstr s => exact loadVal_dumpStr fuel s rest

theorem toKey_keyVal (k : PyKey) : toKey (keyVal k) = some k := by
  cases k <;> rfl

mutual
theorem loadVal_dumpVal : ∀ (v : PyVal) (fuel : Nat) (rest : List Char),
    goodV v = true → depthV v < fuel →
    loadVal fuel (dumpVal v ++ rest) = some (v, rest)
  | .pstr s, fuel, rest, _, hd => by
      obtain ⟨f, rfl⟩ : ∃ f, fuel = f + 1 := ⟨fuel - 1, by omega⟩
      exact loadVal_dumpStr f s rest
  | .pint n, fuel, rest, _, hd => by
      obtain ⟨f, rfl⟩ : ∃ f, fuel = f + 1 := ⟨fuel - 1, by omega⟩
      exact loadVal_dumpInt f n rest
  | .pfloat lit, fuel, rest, hg, hd => by
      obtain ⟨f, rfl⟩ : ∃ f, fuel = f + 1 := ⟨fuel - 1, by omega⟩
      have hsemi : ∀ c ∈ lit.data, c ≠ ';' := by
        simp only [goodV, List.all_eq_true, decide_eq_true_eq] at hg
        exact hg
      have h1 : readUntil ';' (lit.data ++ ';' :: rest) = some (lit.data, rest) :=
        readUntil_append ';' _ _ hsemi
      simp only [dumpVal, List.cons_append, List.append_assoc, List.nil_append]
      rw [loadVal_tag_d]
      simp [loadFloat, h1, stringMk_data]
  | .pbool b, fuel, rest, _, hd => by
      obtain ⟨f, rfl⟩ : ∃ f, fuel = f + 1 := ⟨fuel - 1, by omega⟩
      cases b with
      | true =>
        show loadVal (f + 1) ('b' :: ':' :: '1' :: ';' :: rest) = some (.pbool true, rest)
        rfl
      | false =>
        show loadVal (f + 1) ('b' :: ':' :: '0' :: ';' :: rest) = some (.pbool false, rest)
        rfl
  | .pnone, fuel, rest, _, hd => by
      obtain ⟨f, rfl⟩ : ∃ f, fuel = f + 1 := ⟨fuel - 1, by omega⟩
      show loadVal (f + 1) ('N' :: ';' :: rest) = some (.pnone, rest)
      rfl
  | .pdict es, fuel, rest, hg, hd => by
      obtain ⟨f, rfl⟩ : ∃ f, fuel = f + 1 := ⟨fuel - 1, by omega⟩
      have hge : goodE es = true := by simpa [goodV] using hg
      have hdep : depthE es < f := by
        simp only [depthV] at hd
        omega
      have h1 : readUntil ':'
          (natChars (entLen es) ++ ':' :: arrO :: (dumpEntries es ++ arrC :: rest))
          = some (natChars (entLen es), arrO :: (dumpEntries es ++ arrC :: rest)) :=
        readUntil_append ':' _ _ (fun c hc => isDigit_ne_colon (natChars_all_digit _ c hc))
      have h2 := loadEntries_dumpEntries es f (arrC :: rest) hge hdep
      simp only [dumpVal, List.cons_append, List.append_assoc, List.nil_append]
      rw [loadVal_tag_a]
      simp [loadArr, h1, parseNat_natChars, h2]
  | .plist vs, fuel, rest, hg, hd => by
      exact absurd hg (by simp [goodV])
theorem loadEntries_dumpEntries : ∀ (es : PyEntries) (fuel : Nat) (rest : List Char),
    goodE es = true → depthE es < fuel →
    loadEntries (loadVal fuel) (entLen es) (dumpEntries es ++ rest) = some (es, rest)
  | .nil, fuel, rest, _, _ => by simp [entLen, dumpEntries, loadEntries]
  | .cons k v es, fuel, rest, hg, hd => by
      obtain ⟨f, rfl⟩ : ∃ f, fuel = f + 1 := ⟨fuel - 1, by omega⟩
      have hgv : goodV v = true := by
        simp only [goodE, Bool.and_eq_true] at hg
        exact hg.1
      have hge : goodE es = true := by
        simp only [goodE, Bool.and_eq_true] at hg
        exact hg.2
      have hdv : depthV v < f + 1 := by
        simp only [depthE] at hd
        omega
      have hde : depthE es < f + 1 := by
        simp only [depthE] at hd
        omega
      have hk := loadVal_dumpKey f k (dumpVal v ++ (dumpEntries es ++ rest))
      have hv := loadVal_dumpVal v (f + 1) (dumpEntries es ++ rest) hgv hdv
      have he := loadEntries_dumpEntries es (f + 1) rest hge hde
      simp only [entLen, dumpEntries, List.append_assoc, loadEntries]
      simp [hk, toKey_keyVal, hv, he]
end

/-! Depth is bounded by the length of the serialization, so the fuel
`phpLoads` passes always suffices. -/
mutual
theorem depthV_le_dump : ∀ v : PyVal, depthV v ≤ (dumpVal v).length
  | .pstr s => by simp [depthV]
  | .pint n => by simp [depthV]
  | .pfloat lit => by simp [depthV]
  | .pbool b => by simp [depthV]
  | .pnone => by simp [depthV]
  | .pdict es => by
      have h := depthE_le_dump es
      simp only [depthV, dumpVal, List.length_cons, List.length_append]
      omega
  | .plist vs => by
      have h := depthI_le_dump 0 vs
      simp only [depthV, dumpVal, List.length_cons, List.length_append]
      omega
theorem depthE_le_dump : ∀ es : PyEntries, depthE es ≤ (dumpEntries es).length
  | .nil => by simp [depthE, dumpEntries]
  | .cons k v es => by
      have h1 := depthV_le_dump v
      have h2 := depthE_le_dump es
      simp only [depthE, dumpEntries, List.length_append]
      omega
theorem depthI_le_dump : ∀ (i : Nat) (vs : PyItems), depthI vs ≤ (dumpItems i vs).length
  | _, .nil => by simp [depthI, dumpItems]
  | i, .cons v vs => by
      have h1 := depthV_le_dump v
      have h2 := depthI_le_dump (i + 1) vs
      simp only [depthI, dumpItems, List.length_append]
      omega
end

/-- Round trip of the `phpserialize` codec itself: parsing the dump of any
sequence-free, repr-float value recovers it exactly. -/
theorem phpLoads_phpDumps (v : PyVal) (h : goodV v = true) :
    phpLoads (dumpVal v) = some v := by
  unfold phpLoads
  have hd : depthV v < (dumpVal v).length + 1 :=
    Nat.lt_succ_of_le (depthV_le_dump v)
  have := loadVal_dumpVal v ((dumpVal v).length + 1) [] h hd
  rw [List.append_nil] at this
  rw [this]
  rfl

theorem lockInv_init (n : Nat) (tok : Fin n → List Char) : LockInv n tok (initState n) := by
  constructor
  · intro i h
    rcases h with h | h <;> simp [initState] at h
  · simp [initState, savedOrDone]

theorem filter_update_congr {n : Nat} (f : Fin n → Phase) (i : Fin n) (ph : Phase)
    (hsame : savedOrDone ph = savedOrDone (f i)) :
    (Finset.univ.filter (fun j : Fin n => savedOrDone (Function.update f i ph j) = true)) =
      (Finset.univ.filter (fun j : Fin n => savedOrDone (f j) = true)) := by
  apply Finset.filter_congr
  intro j _
  by_cases hj : j = i
  · subst hj; simp [Function.update_same, hsame]
  · simp [Function.update_noteq hj]

theorem filter_update_insert {n : Nat} (f : Fin n → Phase) (i : Fin n) (ph : Phase)
    (hnew : savedOrDone ph = true) (hold : savedOrDone (f i) = false) :
    (Finset.univ.filter (fun j : Fin n => savedOrDone (Function.update f i ph j) = true)) =
      insert i (Finset.univ.filter (fun j : Fin n => savedOrDone (f j) = true)) := by
  ext j
  by_cases hj : j = i
  · subst hj; simp [Function.update_same, hnew]
  · simp [Function.update_noteq hj, hj]

theorem lockInv_step {n : Nat} {tok : Fin n → List Char}
    (hinj : Function.Injective tok) {s s2 : CState n}
    (hinv : LockInv n tok s) (hstep : CStep n tok s s2) : LockInv n tok s2 := by
  obtain ⟨hown, hcount⟩ := hinv
  cases hstep with
  | acquireOk i s hi hcell =>
    refine ⟨?_, ?_⟩
    · intro j hj
      dsimp only at hj ⊢
      by_cases hij : j = i
      · subst hij; rfl
      · rw [Function.update_noteq hij] at hj
        have hcontra := hown j hj
        rw [hcell] at hcontra
        exact absurd hcontra (by simp)
    · dsimp only
      rw [filter_update_congr s.phases i .held (by rw [hi]; rfl)]
      exact hcount
  | acquireBusy i s t hi hcell => exact ⟨hown, hcount⟩
  | timeout i s hi =>
    refine ⟨?_, ?_⟩
    · intro j hj
      dsimp only at hj ⊢
      by_cases hij : j = i
      · subst hij
        rw [Function.update_same] at hj
        rcases hj with hj | hj <;> exact absurd hj (by simp)
      · rw [Function.update_noteq hij] at hj
        exact hown j hj
    · dsimp only
      rw [filter_update_congr s.phases i .failed (by rw [hi]; rfl)]
      exact hcount
  | save i s hi =>
    refine ⟨?_, ?_⟩
    · intro j hj
      dsimp only at hj ⊢
      by_cases hij : j = i
      · subst hij
        exact hown j (Or.inl hi)
      · rw [Function.update_noteq hij] at hj
        exact hown j hj
    · dsimp only
      rw [filter_update_insert s.phases i .saved rfl (by rw [hi]; rfl)]
      rw [Finset.card_insert_of_not_mem (by simp [hi, savedOrDone])]
      omega
  | release i s hi =>
    have hc : s.lockCell = some (tok i) := hown i (Or.inr hi)
    refine ⟨?_, ?_⟩
    · intro j hj
      dsimp only at hj ⊢
      by_cases hij : j = i
      · subst hij
        rw [Function.update_same] at hj
        rcases hj with hj | hj <;> exact absurd hj (by simp)
      · rw [Function.update_noteq hij] at hj
        have heq := hown j hj
        rw [hc] at heq
        have htok : tok i = tok j := by injection heq
        exact absurd (hinj htok) (fun h => hij h.symm)
    · dsimp only
      rw [filter_update_congr s.phases i .done (by rw [hi]; rfl)]
      exact hcount

theorem lockInv_reachable {n : Nat} {tok : Fin n → List Char}
    (hinj : Function.Injective tok) {s : CState n}
    (h : Reachable n tok s) : LockInv n tok s := by
  induction h with
  | refl => exact lockInv_init n tok
  | tail _ hstep ih => exact lockInv_step hinj ih hstep

/-! ## Supporting lemmas -/
theorem acqLoop_busy (st : Store) (lk : String) (T : Nat)
    (hbusy : (st lk).isNone = false) :
    ∀ (fuel now : Nat), T ≤ now + 50 * fuel → now < T + 50 →
      (acqLoop st lk T now fuel).1 = false ∧
      T ≤ (acqLoop st lk T now fuel).2.1 ∧
      (acqLoop st lk T now fuel).2.1 < T + 50 ∧
      ∀ op ∈ (acqLoop st lk T now fuel).2.2, op = .rsetnx lk := by
  intro fuel
  induction fuel with
  | zero =>
    intro now hfuel hnow
    have heq : acqLoop st lk T now 0 = (false, now, []) := rfl
    rw [heq]
    dsimp only
    refine ⟨rfl, by omega, hnow, ?_⟩
    intro op hop
    exact absurd hop (List.not_mem_nil op)
  | succ f ih =>
    intro now hfuel hnow
    by_cases hlt : now < T
    · have hrec := ih (now + 50) (by omega) (by omega)
      have heq : acqLoop st lk T now (f + 1)
          = ((acqLoop st lk T (now + 50) f).1, (acqLoop st lk T (now + 50) f).2.1,
              .rsetnx lk :: (acqLoop st lk T (now + 50) f).2.2) := by
        simp only [acqLoop, if_pos hlt, hbusy, Bool.false_eq_true, if_false]
      rw [heq]
      refine ⟨hrec.1, hrec.2.1, hrec.2.2.1, ?_⟩
      intro op hop
      rcases List.mem_cons.mp hop with h | h
      · exact h
      · exact hrec.2.2.2 op h
    · have heq : acqLoop st lk T now (f + 1) = (false, now, []) := by
        simp only [acqLoop, if_neg hlt]
      rw [heq]
      dsimp only
      refine ⟨rfl, by omega, hnow, ?_⟩
      intro op hop
      exact absurd hop (List.not_mem_nil op)

theorem acqLoop_free (st : Store) (lk : String) (T fuel : Nat)
    (hfree : (st lk).isNone = true) (hT : 0 < T) :
    acqLoop st lk T 0 (fuel + 1) = (true, 0, [.rsetnx lk]) := by
  simp [acqLoop, hT, hfree]

theorem string_length_pos_of_ne_empty (s : String) (h : s ≠ "") : 0 < s.length := by
  cases s with
  | mk data =>
    cases data with
    | nil => exact absurd rfl h
    | cons c cs => simp [String.length]

theorem lockKey_ne_sessionKey (cfg : SessionConfig) (sid : String)
    (h : cfg.lockSfx ≠ "") : lockKey cfg sid ≠ sessionKey cfg sid := by
  intro heq
  have hlen := congrArg String.length heq
  rw [lockKey, String.length_append] at hlen
  have := string_length_pos_of_ne_empty cfg.lockSfx h
  omega

theorem shouldDecode_eq_specTargeted (fields : Option (List String)) (pfx : Option String)
    (k : String) : shouldDecode fields pfx k = specTargeted fields pfx k := by
  unfold shouldDecode specTargeted
  congr 1
  · cases fields with
    | none => rfl
    | some fs =>
      cases fs with
      | nil => simp
      | cons a l => simp
  · cases pfx with
    | none => rfl
    | some p => simp [decide_not]

theorem decode_json_fields_eq_spec (fields : Option (List String)) (pfx : Option String) :
    ∀ data : PyEntries,
      decode_json_fields data fields pfx = entMap (jsonPassSpec fields pfx) data
  | .nil => rfl
  | .cons k v rest => by
    have ih := decode_json_fields_eq_spec fields pfx rest
    simp only [decode_json_fields, entMap, ih]
    congr 1
    cases k with
    | kint n => cases v <;> rfl
    | kstr ks =>
      cases v <;> try rfl
      next s =>
        simp only [jsonPassSpec, shouldDecode_eq_specTargeted]

theorem decode_json_fields_id (fields : Option (List String)) (pfx : Option String) :
    ∀ data : PyEntries, jsonSafeB fields pfx data = true →
      decode_json_fields data fields pfx = data
  | .nil => fun _ => rfl
  | .cons k v rest => by
    intro h
    have ih := decode_json_fields_id fields pfx rest
    simp only [jsonSafeB, Bool.and_eq_true] at h
    simp only [decode_json_fields, ih h.2]
    congr 1
    cases k with
    | kint n => cases v <;> rfl
    | kstr ks =>
      cases v <;> try rfl
      next s =>
        have h1 := h.1
        by_cases hsd : shouldDecode fields pfx ks = true
        · simp only [hsd, if_true] at h1 ⊢
          cases hjl : jsonLoads s with
          | none => simp
          | some w => rw [hjl] at h1; simp at h1
        · simp only [hsd]
          simp

theorem patMatch_no_null (t : String) (h : patMatch t = true) :
    t.data.contains '\x00' = false := by
  simp only [patMatch, Bool.and_eq_true, List.all_eq_true] at h
  by_contra hc
  rw [Bool.not_eq_false, List.contains_iff_exists_mem_beq] at hc
  obtain ⟨a, ha, hbeq⟩ := hc
  have : '\x00' = a := by simpa using hbeq
  subst this
  have := h.2 '\x00' ha
  exact absurd this (by decide)

theorem djf_pfx_empty :
    ∀ (data : PyEntries) (fields : Option (List String)),
      decode_json_fields data fields (some "") = decode_json_fields data fields none
  | .nil, _ => rfl
  | .cons k v r, fields => by
    have ih := djf_pfx_empty r fields
    have hsd : ∀ ks, shouldDecode fields (some "") ks = shouldDecode fields none ks :=
      fun ks => by simp [shouldDecode]
    simp only [decode_json_fields, ih, hsd]

theorem djf_fields_empty :
    ∀ (data : PyEntries) (pfx : Option String),
      decode_json_fields data (some []) pfx = decode_json_fields data none pfx
  | .nil, _ => rfl
  | .cons k v r, pfx => by
    have ih := djf_fields_empty r pfx
    have hsd : ∀ ks, shouldDecode (some []) pfx ks = shouldDecode none pfx ks :=
      fun ks => by simp [shouldDecode]
    simp only [decode_json_fields, ih, hsd]

theorem djf_both_empty :
    ∀ data : PyEntries, decode_json_fields data (some []) (some "") = data
  | .nil => rfl
  | .cons k v r => by
    have ih := djf_both_empty r
    have hsd : ∀ ks, shouldDecode (some []) (some "") ks = false :=
      fun ks => by simp [shouldDecode]
    simp only [decode_json_fields, ih, hsd, Bool.false_eq_true, if_false]
    cases k with
    | kint n => cases v <;> rfl
    | kstr ks => cases v <;> rfl

/-! ## The claims -/
/-- A candidate padded with the ASCII file separator `\x1c` — which
CPython's `str.strip()` removes — is stripped and accepted, as the
program does. -/
theorem sanitize_strips_ascii_fs :
    sanitize_phpsessid (some (String.mk ('\x1c' :: List.replicate 26 'a')))
      = some (String.mk (List.replicate 26 'a')) := by decide

/-- C5: a candidate whose stripped form matches `^[a-zA-Z0-9]{26,128}$`
is returned stripped and unchanged by `sanitize_phpsessid`; every other
candidate (empty, too short, too long, non-alphanumeric bytes, and so on)
yields `None`. -/
theorem c5_sanitize_pattern :
    ∀ cand : String,
      sanitize_phpsessid (some cand)
        = if patMatch (pyStrip cand) then some (pyStrip cand) else none := by
  intro cand
  show (if cand = "" then none
        else
          let t := pyStrip cand
          if patMatch t = true then
            if t.data.contains '\x00' = true then none else some t
          else none)
      = if patMatch (pyStrip cand) = true then some (pyStrip cand) else none
  by_cases hemp : cand = ""
  · subst hemp
    rw [if_pos rfl]
    have hpat : patMatch (pyStrip "") = false := rfl
    rw [hpat]
    rfl
  · rw [if_neg hemp]
    show (if patMatch (pyStrip cand) = true then
            if (pyStrip cand).data.contains '\x00' = true then none else some (pyStrip cand)
          else none)
        = if patMatch (pyStrip cand) = true then some (pyStrip cand) else none
    by_cases hp : patMatch (pyStrip cand) = true
    · rw [if_pos hp, if_pos hp, patMatch_no_null (pyStrip cand) hp]
      rfl
    · rw [Bool.not_eq_true] at hp
      rw [hp]
      rfl

/-- C6: the release script deletes the lock key exactly when its current
value equals the token (answering 1), is a silent no-op answering 0
otherwise (mismatch or absent key), and never touches another key. -/
theorem c6_release_lock :
    ∀ (st : Store) (k : String) (token : List Char),
      (releaseLock st k token
        = if (st k).map RVal.val = some token then (supd st k none, 1) else (st, 0)) ∧
      ∀ k2, k2 ≠ k → (releaseLock st k token).1 k2 = st k2 := by
  intro st k token
  constructor
  · unfold releaseLock
    cases hk : st k with
    | none => simp
    | some e =>
      by_cases he : e.val = token
      · simp [he]
      · simp [he]
  · intro k2 hk2
    unfold releaseLock
    cases st k with
    | none => rfl
    | some e =>
      by_cases he : e.val = token
      · simp [he, supd, hk2]
      · simp [he]

/-- Witness for C6 at a concrete store: deleting key `"b"` with the
matching token leaves the unrelated key `"a"` untouched. -/
theorem c6_release_lock_witness :
    ("a" : String) ≠ "b" ∧
      (releaseLock (supd emptyStore "b" (some ⟨['t'], 5⟩)) "b" ['t']).1 "a"
        = supd emptyStore "b" (some ⟨['t'], 5⟩) "a" :=
  ⟨by decide, (c6_release_lock (supd emptyStore "b" (some ⟨['t'], 5⟩)) "b" ['t']).2 "a"
    (by decide)⟩

/-- C7: `decode_json_fields` is exactly the spec's best-effort JSON pass:
each string entry whose key is known or carries the (non-empty)
auto-detect marker is replaced by its parsed JSON when parsing succeeds
and kept verbatim when it fails, everything else is untouched; concretely
a known field holding `["a","b"]` becomes that sequence while `not json`
stays itself. -/
theorem c7_decode_json_fields :
    (∀ (fields : Option (List String)) (pfx : Option String) (data : PyEntries),
      decode_json_fields data fields pfx = entMap (jsonPassSpec fields pfx) data) ∧
    decode_json_fields
        (.cons (.kstr "f") (.pstr "[\"a\",\"b\"]") .nil) (some ["f"]) none
      = .cons (.kstr "f") (.plist (.cons (.pstr "a") (.cons (.pstr "b") .nil))) .nil ∧
    decode_json_fields (.cons (.kstr "f") (.pstr "not json") .nil) (some ["f"]) none
      = .cons (.kstr "f") (.pstr "not json") .nil :=
  ⟨fun fields pfx data => decode_json_fields_eq_spec fields pfx data, by decide, by decide⟩

/-- C10: an empty `json_prefix` disables prefix matching outright (it
does not match every key) and an empty `json_fields` set disables
known-field decoding, so with both empty the record is returned
unchanged. -/
theorem c10_empty_markers_disable :
    (∀ (data : PyEntries) (fields : Option (List String)),
        decode_json_fields data fields (some "") = decode_json_fields data fields none) ∧
    (∀ (data : PyEntries) (pfx : Option String),
        decode_json_fields data (some []) pfx = decode_json_fields data none pfx) ∧
    (∀ data : PyEntries, decode_json_fields data (some []) (some "") = data) :=
  ⟨fun data fields => djf_pfx_empty data fields,
   fun data pfx => djf_fields_empty data pfx,
   fun data => djf_both_empty data⟩

/-- C8: every public operation resolves the session id the same way — an
explicit parameter wins, else the ambient context id, else the
context-missing error, which is a different constructor from the
lock-acquisition error. -/
theorem c8_resolution_precedence :
    (∀ (s : String) (ctx : Option String), resolveSessionId (some s) ctx = .ok s) ∧
    (∀ c : String, resolveSessionId none (some c) = .ok c) ∧
    resolveSessionId none none = .error .ctxMissing ∧
    (∀ cfg st key explicit ctx,
        getRun cfg st key explicit ctx
          = match resolveSessionId explicit ctx with
            | .error e => .error e
            | .ok sid => getRun cfg st key (some sid) none) ∧
    (∀ cfg st k v explicit ctx,
        setRun cfg st k v explicit ctx
          = match resolveSessionId explicit ctx with
            | .error e => .error e
            | .ok sid => setRun cfg st k v (some sid) none) ∧
    (∀ cfg st data explicit ctx,
        saveRun cfg st data explicit ctx
          = match resolveSessionId explicit ctx with
            | .error e => .error e
            | .ok sid => saveRun cfg st data (some sid) none) ∧
    (∀ cfg st explicit ctx,
        deleteRun cfg st explicit ctx
          = match resolveSessionId explicit ctx with
            | .error e => .error e
            | .ok sid => deleteRun cfg st (some sid) none) ∧
    (∀ cfg st explicit ctx,
        existsRun cfg st explicit ctx
          = match resolveSessionId explicit ctx with
            | .error e => .error e
            | .ok sid => existsRun cfg st (some sid) none) ∧
    (∀ (E : Type) cfg st explicit ctx token (body : PyEntries → PyEntries × Option E),
        lockRun cfg st explicit ctx token body
          = match resolveSessionId explicit ctx with
            | .error _ => ⟨.error .ctxError, st, [], 0, none⟩
            | .ok sid => lockRun cfg st (some sid) none token body) ∧
    (∀ (E : Type) (r : String) (t : Nat),
        (LockErr.ctxError : LockErr E) ≠ .lockFailure r t) := by
  refine ⟨fun s ctx => rfl, fun c => rfl, rfl, ?_, ?_, ?_, ?_, ?_, ?_, ?_⟩
  · intro cfg st key explicit ctx
    cases explicit with
    | some s => rfl
    | none => cases ctx with
      | some c => rfl
      | none => rfl
  · intro cfg st k v explicit ctx
    cases explicit with
    | some s => rfl
    | none => cases ctx with
      | some c => rfl
      | none => rfl
  · intro cfg st data explicit ctx
    cases explicit with
    | some s => rfl
    | none => cases ctx with
      | some c => rfl
      | none => rfl
  · intro cfg st explicit ctx
    cases explicit with
    | some s => rfl
    | none => cases ctx with
      | some c => rfl
      | none => rfl
  · intro cfg st explicit ctx
    cases explicit with
    | some s => rfl
    | none => cases ctx with
      | some c => rfl
      | none => rfl
  · intro E cfg st explicit ctx token body
    cases explicit with
    | some s => rfl
    | none => cases ctx with
      | some c => rfl
      | none => rfl
  · intro E r t h
    exact LockErr.noConfusion h

/-- C1: for one session id under N concurrent `lock()` callers — each
with its own fresh token, mutual exclusion enforced only by the store's
set-if-absent acquire and token-checked atomic release — at most one
caller is ever `Held` at a time, and when all N have completed their
scope exactly N saves have been issued. -/
theorem c1_mutual_exclusion :
    ∀ (n : Nat) (tok : Fin n → List Char), Function.Injective tok →
      ∀ s : CState n, Reachable n tok s →
        (∀ i j : Fin n, s.phases i = .held → s.phases j = .held → i = j) ∧
        ((∀ i, s.phases i = .done) → s.saves = n) := by
  intro n tok hinj s hreach
  obtain ⟨hown, hcount⟩ := lockInv_reachable hinj hreach
  constructor
  · intro i j hi hj
    have h1 := hown i (Or.inl hi)
    have h2 := hown j (Or.inl hj)
    rw [h1] at h2
    exact hinj (by injection h2)
  · intro hall
    rw [hcount]
    have hfil : (Finset.univ.filter (fun i : Fin n => savedOrDone (s.phases i) = true))
        = Finset.univ := by
      apply Finset.filter_true_of_mem
      intro x _
      rw [hall x]
      rfl
    rw [hfil, Finset.card_univ, Fintype.card_fin]

/-- Witness for C1: a concrete two-caller interleaving that drives both
callers to `done`, at which point the theorem yields mutual exclusion and
a save count of 2. -/
theorem c1_mutual_exclusion_witness :
    Function.Injective twoTok ∧ Reachable 2 twoTok twoFinal ∧
      ((∀ i j : Fin 2, twoFinal.phases i = .held → twoFinal.phases j = .held → i = j) ∧
        ((∀ i, twoFinal.phases i = .done) → twoFinal.saves = 2)) := by
  have hinj : Function.Injective twoTok := by
    intro a b h
    fin_cases a <;> fin_cases b <;> first | rfl | exact absurd h (by decide)
  have hreach : Reachable 2 twoTok twoFinal :=
    Relation.ReflTransGen.tail
      (Relation.ReflTransGen.tail
        (Relation.ReflTransGen.tail
          (Relation.ReflTransGen.tail
            (Relation.ReflTransGen.tail
              (Relation.ReflTransGen.tail Relation.ReflTransGen.refl
                (CStep.acquireOk 0 (initState 2) rfl rfl))
              (CStep.save 0 _ rfl))
            (CStep.release 0 _ rfl))
          (CStep.acquireOk 1 _ rfl rfl))
        (CStep.save 1 _ rfl))
      (CStep.release 1 _ rfl)
  exact ⟨hinj, hreach, c1_mutual_exclusion 2 twoTok hinj twoFinal hreach⟩

/-- C4 counterexample: the manager's decode path is not a left inverse of
the save path — a known JSON field holding the string `"1"` comes back as
the integer 1, and a sequence comes back as an int-keyed map. -/
theorem c4_roundtrip_counterexample :
    decodeSession defaultConfig
        (phpDumps (.cons (.kstr "scart_items") (.pstr "1") .nil))
      ≠ some (.cons (.kstr "scart_items") (.pstr "1") .nil) ∧
    decodeSession defaultConfig
        (phpDumps (.cons (.kstr "k") (.plist (.cons (.pstr "a") (.cons (.pstr "b") .nil))) .nil))
      ≠ some (.cons (.kstr "k") (.plist (.cons (.pstr "a") (.cons (.pstr "b") .nil))) .nil) := by
  exact ⟨by decide, by decide⟩

/-- C4 amended: for every record in the supported subset that contains no
sequence and whose JSON-targeted top-level strings do not parse as JSON,
the manager's decode of the saved encoding returns the record
unchanged. -/
theorem c4_roundtrip_amended :
    ∀ (cfg : SessionConfig) (es : PyEntries),
      goodE es = true →
      jsonSafeB cfg.jsonFields cfg.jsonPfx es = true →
      decodeSession cfg (phpDumps es) = some es := by
  intro cfg es hg hsafe
  unfold decodeSession phpDumps
  rw [phpLoads_phpDumps (.pdict es) (by simpa [goodV] using hg)]
  show some (decode_json_fields es cfg.jsonFields cfg.jsonPfx) = some es
  rw [decode_json_fields_id cfg.jsonFields cfg.jsonPfx es hsafe]

/-- Witness for the amended C4 at a concrete record and the default
configuration. -/
theorem c4_roundtrip_amended_witness :
    goodE wRec = true ∧
      jsonSafeB defaultConfig.jsonFields defaultConfig.jsonPfx wRec = true ∧
      decodeSession defaultConfig (phpDumps wRec) = some wRec :=
  ⟨by decide, by decide, c4_roundtrip_amended defaultConfig wRec (by decide) (by decide)⟩

/-- C3: when the conditional set-if-absent never lands (the lock key is
occupied for the whole window), `lock()` raises `SessionLockError`
carrying the redacted id and the timeout, after an elapsed time inside
`[lock_timeout, lock_timeout + one 50 ms retry)`; the failure path issues
only `SET NX` attempts on the lock key and leaves the store — in
particular all session data — untouched. -/
theorem c3_timeout_failure :
    ∀ (E : Type) (cfg : SessionConfig) (st : Store) (sid : String) (ctx : Option String)
      (token : List Char) (body : PyEntries → PyEntries × Option E) (e0 : RVal),
      st (lockKey cfg sid) = some e0 →
      (lockRun cfg st (some sid) ctx token body).result
          = .error (.lockFailure (redact sid) cfg.lockTimeoutMs) ∧
      (lockRun cfg st (some sid) ctx token body).store = st ∧
      cfg.lockTimeoutMs ≤ (lockRun cfg st (some sid) ctx token body).elapsedMs ∧
      (lockRun cfg st (some sid) ctx token body).elapsedMs < cfg.lockTimeoutMs + 50 ∧
      (∀ op ∈ (lockRun cfg st (some sid) ctx token body).trace,
          op = .rsetnx (lockKey cfg sid)) ∧
      (lockRun cfg st (some sid) ctx token body).yielded = none := by
  intro E cfg st sid ctx token body e0 hheld
  have hbusy : (st (lockKey cfg sid)).isNone = false := by rw [hheld]; rfl
  have hdiv := Nat.div_add_mod cfg.lockTimeoutMs 50
  have hmod : cfg.lockTimeoutMs % 50 < 50 := Nat.mod_lt _ (by omega)
  have hloop := acqLoop_busy st (lockKey cfg sid) cfg.lockTimeoutMs hbusy
    (cfg.lockTimeoutMs / 50 + 1) 0 (by omega) (by omega)
  have hres : resolveSessionId (some sid) ctx = .ok sid := rfl
  have hrun : lockRun cfg st (some sid) ctx token body
      = ⟨.error (.lockFailure (redact sid) cfg.lockTimeoutMs), st,
          (acqLoop st (lockKey cfg sid) cfg.lockTimeoutMs 0 (cfg.lockTimeoutMs / 50 + 1)).2.2,
          (acqLoop st (lockKey cfg sid) cfg.lockTimeoutMs 0 (cfg.lockTimeoutMs / 50 + 1)).2.1,
          none⟩ := by
    simp only [lockRun, hres, hloop.1, Bool.false_eq_true, if_false]
  rw [hrun]
  exact ⟨rfl, rfl, hloop.2.1, hloop.2.2.1, hloop.2.2.2, rfl⟩

/-- Witness for C3: with the lock held by `'o'` and a 100 ms timeout, the
call fails with the redacted id and timeout after 100 ms (two rejected
attempts, at 0 ms and at 50 ms), touching nothing. -/
theorem c3_timeout_failure_witness :
    c3store (lockKey c3cfg exampleSid) = some ⟨['o'], 100⟩ ∧
      (lockRun c3cfg c3store (some exampleSid) none ['t']
          (fun d => (d, (none : Option Nat)))).result
        = .error (.lockFailure (redact exampleSid) 100) ∧
      (lockRun c3cfg c3store (some exampleSid) none ['t']
          (fun d => (d, (none : Option Nat)))).store = c3store := by
  have h := c3_timeout_failure Nat c3cfg c3store exampleSid none ['t']
    (fun d => (d, none)) ⟨['o'], 100⟩ rfl
  exact ⟨rfl, h.1, h.2.1⟩

/-- C2: when the caller's block raises, the `finally` still re-encodes
the (possibly mutated) dict and writes it to the session key with a fresh
TTL, the release script still runs (and, the lock suffix being non-empty,
actually frees the lock), and the block's original exception is what
propagates; the block received exactly the decoded data. -/
theorem c2_exception_safety :
    ∀ (E : Type) (cfg : SessionConfig) (st : Store) (sid : String) (ctx : Option String)
      (token : List Char) (body : PyEntries → PyEntries × Option E)
      (data d2 : PyEntries) (e : E),
      configValid cfg = true →
      cfg.lockSfx ≠ "" →
      st (lockKey cfg sid) = none →
      loadData (decodeSession cfg) (st (sessionKey cfg sid)) = .ok data →
      body data = (d2, some e) →
      (lockRun cfg st (some sid) ctx token body).result = .error (.bodyRaise e) ∧
      (lockRun cfg st (some sid) ctx token body).store (sessionKey cfg sid)
          = some ⟨phpDumps d2, 1000 * cfg.session_expire⟩ ∧
      (lockRun cfg st (some sid) ctx token body).store (lockKey cfg sid) = none ∧
      ROp.rscript (lockKey cfg sid) ∈ (lockRun cfg st (some sid) ctx token body).trace ∧
      (lockRun cfg st (some sid) ctx token body).yielded = some data := by
  intro E cfg st sid ctx token body data d2 e hvalid hsfx hlk hload hbody
  have hT : 0 < cfg.lockTimeoutMs := by
    simp only [configValid, Bool.and_eq_true, decide_eq_true_eq] at hvalid
    exact hvalid.1.2
  have hfree : (st (lockKey cfg sid)).isNone = true := by rw [hlk]; rfl
  have hacq := acqLoop_free st (lockKey cfg sid) cfg.lockTimeoutMs
    (cfg.lockTimeoutMs / 50) hfree hT
  have hne : sessionKey cfg sid ≠ lockKey cfg sid :=
    fun h => lockKey_ne_sessionKey cfg sid hsfx h.symm
  have hres : resolveSessionId (some sid) ctx = .ok sid := rfl
  have hst1 : supd st (lockKey cfg sid) (some ⟨token, cfg.lockTimeoutMs⟩) (sessionKey cfg sid)
      = st (sessionKey cfg sid) := by
    unfold supd
    rw [if_neg hne]
  have hrun : lockRun cfg st (some sid) ctx token body
      = ⟨.error (.bodyRaise e),
          (releaseLock
            (supd (supd st (lockKey cfg sid) (some ⟨token, cfg.lockTimeoutMs⟩))
              (sessionKey cfg sid) (some ⟨phpDumps d2, 1000 * cfg.session_expire⟩))
            (lockKey cfg sid) token).1,
          [.rsetnx (lockKey cfg sid), .rget (sessionKey cfg sid),
            .rset (sessionKey cfg sid), .rscript (lockKey cfg sid)],
          0, some data⟩ := by
    simp only [lockRun, hres, hacq, hst1, hload, hbody]
    rfl
  rw [hrun]
  refine ⟨rfl, ?_, ?_, by simp, rfl⟩
  · show (releaseLock _ (lockKey cfg sid) token).1 (sessionKey cfg sid) = _
    have hlk2 : (supd (supd st (lockKey cfg sid) (some ⟨token, cfg.lockTimeoutMs⟩))
        (sessionKey cfg sid) (some ⟨phpDumps d2, 1000 * cfg.session_expire⟩))
          (lockKey cfg sid) = some ⟨token, cfg.lockTimeoutMs⟩ := by
      unfold supd
      rw [if_neg (fun h => hne h.symm), if_pos rfl]
    unfold releaseLock
    rw [hlk2]
    simp [supd, hne]
  · show (releaseLock _ (lockKey cfg sid) token).1 (lockKey cfg sid) = none
    have hlk2 : (supd (supd st (lockKey cfg sid) (some ⟨token, cfg.lockTimeoutMs⟩))
        (sessionKey cfg sid) (some ⟨phpDumps d2, 1000 * cfg.session_expire⟩))
          (lockKey cfg sid) = some ⟨token, cfg.lockTimeoutMs⟩ := by
      unfold supd
      rw [if_neg (fun h => hne h.symm), if_pos rfl]
    unfold releaseLock
    rw [hlk2]
    simp [supd]

/-- Witness for C2: on an empty store with the default configuration, a
block that replaces the (empty) session with `{"x": 1}` and raises `7`
still gets its data saved with the session TTL, the lock freed, and the
error `7` propagated. -/
theorem c2_exception_safety_witness :
    configValid defaultConfig = true ∧
      defaultConfig.lockSfx ≠ "" ∧
      emptyStore (lockKey defaultConfig exampleSid) = none ∧
      loadData (decodeSession defaultConfig)
        (emptyStore (sessionKey defaultConfig exampleSid)) = .ok .nil ∧
      (lockRun defaultConfig emptyStore (some exampleSid) none ['t']
          (fun _ => (.cons (.kstr "x") (.pint 1) .nil, some 7))).result
        = .error (.bodyRaise 7) ∧
      (lockRun defaultConfig emptyStore (some exampleSid) none ['t']
          (fun _ => (.cons (.kstr "x") (.pint 1) .nil, some 7))).store
          (sessionKey defaultConfig exampleSid)
        = some ⟨phpDumps (.cons (.kstr "x") (.pint 1) .nil), 1000 * 86400⟩ := by
  have h := c2_exception_safety Nat defaultConfig emptyStore exampleSid none ['t']
    (fun _ => (.cons (.kstr "x") (.pint 1) .nil, some 7)) .nil
    (.cons (.kstr "x") (.pint 1) .nil) 7 (by decide) (by decide) rfl rfl rfl
  exact ⟨by decide, by decide, rfl, rfl, h.1, h.2.1⟩

/-- C9 counterexample: with no stored blob, a plain `get` returns `None`
— Python's null — not the empty session record. -/
theorem c9_absent_get_counterexample :
    getRun defaultConfig emptyStore none (some exampleSid) none = .ok .retNone ∧
      (Except.ok PyRet.retNone : Except SessErr PyRet) ≠ .ok (.retDict .nil) :=
  ⟨rfl, fun h => by injection h with h2; exact PyRet.noConfusion h2⟩

/-- C9 amended: a missing blob is never an error — a plain `get` answers
`None` without raising, and `lock()` yields the empty mapping to the
caller's block. -/
theorem c9_absent_amended :
    ∀ (E : Type) (cfg : SessionConfig) (st : Store) (sid : String) (key : Option String)
      (ctx : Option String) (token : List Char) (body : PyEntries → PyEntries × Option E),
      st (sessionKey cfg sid) = none →
      getRun cfg st key (some sid) ctx = .ok .retNone ∧
      (configValid cfg = true → cfg.lockSfx ≠ "" → st (lockKey cfg sid) = none →
        (lockRun cfg st (some sid) ctx token body).yielded = some .nil) := by
  intro E cfg st sid key ctx token body habsent
  constructor
  · show (match st (sessionKey cfg sid) with
      | none => Except.ok PyRet.retNone
      | some r =>
        match decodeSession cfg r.val with
        | none => Except.error SessErr.decodeFailure
        | some data =>
          match key with
          | none => Except.ok (PyRet.retDict data)
          | some k =>
            match entLookup data k with
            | some v => Except.ok (PyRet.retVal v)
            | none => Except.ok PyRet.retNone) = Except.ok PyRet.retNone
    rw [habsent]
  · intro hvalid hsfx hlk
    have hT : 0 < cfg.lockTimeoutMs := by
      simp only [configValid, Bool.and_eq_true, decide_eq_true_eq] at hvalid
      exact hvalid.1.2
    have hfree : (st (lockKey cfg sid)).isNone = true := by rw [hlk]; rfl
    have hacq := acqLoop_free st (lockKey cfg sid) cfg.lockTimeoutMs
      (cfg.lockTimeoutMs / 50) hfree hT
    have hne : sessionKey cfg sid ≠ lockKey cfg sid :=
      fun h => lockKey_ne_sessionKey cfg sid hsfx h.symm
    have hres : resolveSessionId (some sid) ctx = .ok sid := rfl
    have hst1 : supd st (lockKey cfg sid) (some ⟨token, cfg.lockTimeoutMs⟩) (sessionKey cfg sid)
        = st (sessionKey cfg sid) := by
      unfold supd
      rw [if_neg hne]
    simp only [lockRun, hres, hacq, hst1, habsent]
    rfl

/-- Witness for the amended C9 on the empty store. -/
theorem c9_absent_amended_witness :
    emptyStore (sessionKey defaultConfig exampleSid) = none ∧
      configValid defaultConfig = true ∧
      defaultConfig.lockSfx ≠ "" ∧
      emptyStore (lockKey defaultConfig exampleSid) = none ∧
      getRun defaultConfig emptyStore none (some exampleSid) none = .ok .retNone ∧
      (lockRun defaultConfig emptyStore (some exampleSid) none ['t']
          (fun d => (d, (none : Option Nat)))).yielded = some .nil := by
  have h := c9_absent_amended Nat defaultConfig emptyStore exampleSid none none ['t']
    (fun d => (d, none)) rfl
  exact ⟨rfl, by decide, by decide, rfl, h.1, h.2 (by decide) (by decide) rfl⟩

end PhpSession
